import Mathlib

/-!
Shallow embedding of the `InputSource` implementation for
`TransactionRecordsById` found in
`src/zingolib/src/wallet/transaction_records_by_id/input_source.rs`,
together with proofs about the four operations it provides:
`get_spendable_note`, `select_spendable_notes`,
`get_unspent_transparent_output` and `get_unspent_transparent_outputs`.

Transaction ids, block heights, account ids and monetary values are
modelled as `Nat` (they are `u64`/`u32` values in the source;
`NonNegativeAmount` arithmetic keeps its explicit `MAX_MONEY` bound and
its checked subtraction).  The record store is modelled as the list of
its transaction records in iteration order.
-/

set_option autoImplicit false

namespace ZingoLib

/-- The shielded protocol (pool) tag `zcash_client_backend::ShieldedProtocol`:
exactly two variants. -/
inductive ShieldedProtocol where
  | sapling
  | orchard
  deriving DecidableEq

/-- `ShNoteId { txid, shpool, index }`: the composite note identifier used as
`NoteRef`.  The transaction id is modelled as a `Nat`. -/
@[ext]
structure ShNoteId where
  txid : Nat
  shpool : ShieldedProtocol
  index : Nat
  deriving DecidableEq

/-- Modelled from the spec: the confirmation status of a transaction record.
The spec requires the two queries `is_confirmed_before_or_at` and
`get_confirmed_height`; every non-confirmed variant (unconfirmed /
conflicted / mempool) behaves identically under both queries, so they are
collapsed into a single `unconfirmed` constructor. -/
inductive ConfirmationStatus where
  | unconfirmed
  | confirmed (height : Nat)
  deriving DecidableEq

/-- `status.is_confirmed_before_or_at(&anchor)`: true exactly when the record
is confirmed at a height at or before the anchor. -/
def ConfirmationStatus.is_confirmed_before_or_at :
    ConfirmationStatus → Nat → Bool
  | .unconfirmed, _ => false
  | .confirmed h, anchor => h ≤ anchor

/-- `status.get_confirmed_height()`: the confirmed height, if any. -/
def ConfirmationStatus.get_confirmed_height : ConfirmationStatus → Option Nat
  | .unconfirmed => none
  | .confirmed h => some h

/-- Modelled from the spec: a shielded note of either pool, carrying its
`u64` monetary value and its spent tag. -/
structure ShNote where
  value : Nat
  spent : Bool
  deriving DecidableEq

/-- `OutPoint`: a reference to a transparent output, derived from its owning
transaction and position. -/
structure OutPoint where
  txid : Nat
  index : Nat
  deriving DecidableEq

/-- Modelled from the spec: a transparent output record with its `u64` value,
its locking-script bytes, the data its outpoint is derived from, and its
spent tag (spec invariant 2 tags outputs spent/unspent). -/
structure TransparentOutput where
  txid : Nat
  output_index : Nat
  value : Nat
  script : List Nat
  spent : Bool
  deriving DecidableEq

/-- `output.to_outpoint()`: the deterministic outpoint derivation. -/
def TransparentOutput.to_outpoint (o : TransparentOutput) : OutPoint :=
  ⟨o.txid, o.output_index⟩

/-- A transaction record: confirmation status, one list of notes per shielded
pool, and the transparent outputs.  The owning transaction id is stored with
the record (it is the record's key in the map). -/
structure TransactionRecord where
  txid : Nat
  status : ConfirmationStatus
  sapling_notes : List ShNote
  orchard_notes : List ShNote
  transparent_outputs : List TransparentOutput
  deriving DecidableEq

/-- The per-pool note list of a record. -/
def TransactionRecord.pool_notes (tr : TransactionRecord) :
    ShieldedProtocol → List ShNote
  | .sapling => tr.sapling_notes
  | .orchard => tr.orchard_notes

/-- `ZingoLibError`: the source only ever constructs the string-carrying
`ZingoLibError::Error` variant in this file. -/
inductive ZingoLibError where
  | err (msg : String)
  deriving DecidableEq

/-- `TransactionRecordsById`: the map from txid to record, modelled as the
list of its records in iteration order. -/
abbrev TransactionRecordsById := List TransactionRecord

/-- `self.values()`: iterate the records. -/
def TransactionRecordsById.values (s : TransactionRecordsById) :
    List TransactionRecord := s

/-- `self.get(&txid)`: look a record up by its transaction id. -/
def TransactionRecordsById.get (s : TransactionRecordsById) (txid : Nat) :
    Option TransactionRecord :=
  s.find? (fun tr => tr.txid == txid)

/-- `MAX_MONEY` of `zcash_primitives` (in zatoshis): the bound of the
`NonNegativeAmount` type. -/
def MAX_MONEY : Nat := 21000000 * 100000000

/-- `NonNegativeAmount::from_u64`: succeeds exactly when the value is within
the monetary range (the source maps the failure into
`ZingoLibError::Error`). -/
def NonNegativeAmount.from_u64 (v : Nat) : Except ZingoLibError Nat :=
  if v ≤ MAX_MONEY then .ok v else .error (.err "invalid amount")

/-- `NonNegativeAmount` checked subtraction (`targ - value`): `none` exactly
when the subtrahend exceeds the minuend. -/
def nnSub (a b : Nat) : Option Nat :=
  if b ≤ a then some (a - b) else none

/-- Modelled from the spec: `select_unspent_shnotes_and_ids` is implemented
outside this file; per the spec it returns the record's unspent notes of the
given pool, each paired with its `NoteIdentifier` (the note's position in the
per-pool collection), a reference suitable for re-lookup.  `i` is the index
of the first listed note. -/
def unspentPairsAux (txid : Nat) (pool : ShieldedProtocol) :
    Nat → List ShNote → List (ShNote × ShNoteId)
  | _, [] => []
  | i, n :: rest =>
    if n.spent then unspentPairsAux txid pool (i + 1) rest
    else (n, ⟨txid, pool, i⟩) :: unspentPairsAux txid pool (i + 1) rest

/-- `transaction_record.select_unspent_shnotes_and_ids::<D>()` for the pool
corresponding to the domain `D`. -/
def TransactionRecord.select_unspent_shnotes_and_ids (tr : TransactionRecord)
    (pool : ShieldedProtocol) : List (ShNote × ShNoteId) :=
  unspentPairsAux tr.txid pool 0 (tr.pool_notes pool)

/-- Modelled from the spec: `transaction_record.get_received_note::<D>(index)`
is implemented outside this file; per the spec it retrieves the note at that
position for the pool, packaged (as `ReceivedNote` is) with its identifier. -/
def TransactionRecord.get_received_note (tr : TransactionRecord)
    (pool : ShieldedProtocol) (index : Nat) : Option (ShNoteId × ShNote) :=
  ((tr.pool_notes pool).get? index).map (fun n => (⟨tr.txid, pool, index⟩, n))

/-- Modelled from the spec: `self.get_received_note_from_identifier::<D>` —
look the record up by the identifier's txid, then fetch the note at the
identifier's in-pool index. -/
def TransactionRecordsById.get_received_note_from_identifier
    (s : TransactionRecordsById) (id : ShNoteId) : Option (ShNoteId × ShNote) :=
  (s.get id.txid).bind (fun tr => tr.get_received_note id.shpool id.index)

/-- `get_spendable_note`: build the identifier from txid/protocol/index and
look it up; both protocol arms return `Ok` of the (possibly absent) note. -/
def get_spendable_note (s : TransactionRecordsById) (txid : Nat)
    (protocol : ShieldedProtocol) (index : Nat) :
    Except ZingoLibError (Option (ShNoteId × ShNote)) :=
  .ok (s.get_received_note_from_identifier ⟨txid, protocol, index⟩)

/-- The scan phase of `select_spendable_notes` for one pool: over the records
confirmed at or before the anchor, collect the unspent note/identifier pairs
of the pool, dropping identifiers in the exclusion list; a pool absent from
`sources` collects nothing. -/
def eligiblePairs (s : TransactionRecordsById) (pool : ShieldedProtocol)
    (sources : List ShieldedProtocol) (anchor_height : Nat)
    (exclude : List ShNoteId) : List (ShNote × ShNoteId) :=
  if sources.contains pool then
    (s.values.filter
        (fun tr => tr.status.is_confirmed_before_or_at anchor_height)).flatMap
      (fun tr =>
        (tr.select_unspent_shnotes_and_ids pool).filter
          (fun pr => decide (pr.2 ∉ exclude)))
  else []

/-- The `try_fold` of `select_spendable_notes` over one pool's candidate
list: while the rolling target is `some`, push the re-looked-up note (erroring
if the identifier no longer resolves), convert the scanned note's value, and
subtract it from the rolling target with checked subtraction (`none` = target
satisfied). -/
def poolFold (s : TransactionRecordsById) (pool : ShieldedProtocol) :
    List (ShNote × ShNoteId) → List (ShNoteId × ShNote) → Option Nat →
    Except ZingoLibError (List (ShNoteId × ShNote) × Option Nat)
  | [], acc, rolling => .ok (acc, rolling)
  | (note, noteref) :: rest, acc, rolling =>
    match rolling with
    | none => poolFold s pool rest acc none
    | some targ =>
      match (s.get noteref.txid).bind
          (fun tr => tr.get_received_note pool noteref.index) with
      | none => .error (.err "missing note")
      | some received =>
        match NonNegativeAmount.from_u64 note.value with
        | .error e => .error e
        | .ok v => poolFold s pool rest (acc ++ [received]) (nnSub targ v)

/-- `SpendableNotes`: the per-pool selections returned on success. -/
structure SpendableNotes where
  sapling : List (ShNoteId × ShNote)
  orchard : List (ShNoteId × ShNote)
  deriving DecidableEq

/-- `select_spendable_notes`: reject any account other than zero; scan the
confirmed records into per-pool candidate lists; fold the reversed sapling
candidates (`.rev()`, commented "biggest first" in the source) against the
target, then — if the rolling target is still `some` — the reversed orchard
candidates; if it is still `some` after both pools, fail with the
insufficient-funds message carrying the remaining amount. -/
def select_spendable_notes (s : TransactionRecordsById) (account : Nat)
    (target_value : Nat) (sources : List ShieldedProtocol)
    (anchor_height : Nat) (exclude : List ShNoteId) :
    Except ZingoLibError SpendableNotes :=
  if account ≠ 0 then
    .error (.err "we do not use non-zero accounts (yet?)")
  else
    let sapling_note_noteref_pairs :=
      eligiblePairs s .sapling sources anchor_height exclude
    let orchard_note_noteref_pairs :=
      eligiblePairs s .orchard sources anchor_height exclude
    match poolFold s .sapling sapling_note_noteref_pairs.reverse []
        (some target_value) with
    | .error e => .error e
    | .ok (sapling_notes, after_sapling) =>
      match after_sapling with
      | none => .ok ⟨sapling_notes, []⟩
      | some missing_value_after_sapling =>
        match poolFold s .orchard orchard_note_noteref_pairs.reverse []
            (some missing_value_after_sapling) with
        | .error e => .error e
        | .ok (orchard_notes, after_orchard) =>
          match after_orchard with
          | none => .ok ⟨sapling_notes, orchard_notes⟩
          | some missing_value_after_orchard =>
            .error (.err ("insufficient funds, short " ++
              toString missing_value_after_orchard))

/-- `TxOut { value, script_pubkey }`. -/
structure TxOut where
  value : Nat
  script_pubkey : List Nat
  deriving DecidableEq

/-- `WalletTransparentOutput`: outpoint, txout and confirmed height. -/
structure WalletTransparentOutput where
  outpoint : OutPoint
  txout : TxOut
  height : Nat
  deriving DecidableEq

/-- Modelled from `zcash_primitives` `Script` address parsing: a locking
script is recognized exactly when it is pay-to-public-key-hash
(`76 a9 14 <20 bytes> 88 ac`) or pay-to-script-hash (`a9 14 <20 bytes> 87`). -/
def recognized_script (s : List Nat) : Bool :=
  decide ((s.length = 25 ∧ s.take 3 = [0x76, 0xa9, 0x14] ∧
            s.drop 23 = [0x88, 0xac]) ∨
          (s.length = 23 ∧ s.take 2 = [0xa9, 0x14] ∧ s.drop 22 = [0x87]))

/-- Modelled from `zcash_client_backend`:
`WalletTransparentOutput::from_parts` succeeds exactly when the script parses
to a recognized transparent address. -/
def WalletTransparentOutput.from_parts (outpoint : OutPoint) (txout : TxOut)
    (height : Nat) : Option WalletTransparentOutput :=
  if recognized_script txout.script_pubkey then some ⟨outpoint, txout, height⟩
  else none

/-- `get_unspent_transparent_output`: scan all records' transparent outputs
for the outpoint; an output of a record without a confirmed height does not
stop the scan.  On a find, convert the value and return `from_parts` of the
rebuilt txout (which may itself be `none`). -/
def get_unspent_transparent_output (s : TransactionRecordsById)
    (outpoint : OutPoint) :
    Except ZingoLibError (Option WalletTransparentOutput) :=
  match s.values.findSome? (fun tr =>
      tr.transparent_outputs.findSome? (fun o =>
        if o.to_outpoint = outpoint then
          tr.status.get_confirmed_height.map (fun h => (h, o))
        else none)) with
  | none => .ok none
  | some (height, output) =>
    match NonNegativeAmount.from_u64 output.value with
    | .error e => .error e
    | .ok value =>
      .ok (WalletTransparentOutput.from_parts outpoint
        ⟨value, output.script⟩ height)

/-- The item stream of `get_unspent_transparent_outputs` before `collect`:
records with a confirmed height at or below the ceiling, their non-excluded
outputs; a failed value conversion becomes an `Err` item, a `from_parts`
failure is dropped (`transpose`). -/
def transparentItems (s : TransactionRecordsById) (max_height : Nat)
    (exclude : List OutPoint) :
    List (Except ZingoLibError WalletTransparentOutput) :=
  (s.values.filterMap (fun tr =>
      (tr.status.get_confirmed_height.map (fun h => (tr, h))).filter
        (fun p => decide (p.2 ≤ max_height)))).flatMap
    (fun p =>
      (p.1.transparent_outputs.filter (fun o =>
          exclude.all (fun excluded => decide (excluded ≠ o.to_outpoint)))).filterMap
        (fun o =>
          match NonNegativeAmount.from_u64 o.value with
          | .error e => some (.error e)
          | .ok value =>
            (WalletTransparentOutput.from_parts o.to_outpoint
              ⟨value, o.script⟩ p.2).map .ok))

/-- `collect::<Result<Vec<_>, _>>()`: first error wins, otherwise the list. -/
def collectResults :
    List (Except ZingoLibError WalletTransparentOutput) →
    Except ZingoLibError (List WalletTransparentOutput)
  | [] => .ok []
  | .error e :: _ => .error e
  | .ok w :: rest => (collectResults rest).map (fun l => w :: l)

/-- `get_unspent_transparent_outputs`: the `_address` argument is accepted
but unused (as in the source). -/
def get_unspent_transparent_outputs (s : TransactionRecordsById)
    ( _address : Nat) (max_height : Nat) (exclude : List OutPoint) :
    Except ZingoLibError (List WalletTransparentOutput) :=
  collectResults (transparentItems s max_height exclude)

/-! ## Derived quantities and well-formedness -/

/-- The combined monetary value of a candidate list. -/
def pairsValueSum (pairs : List (ShNote × ShNoteId)) : Nat :=
  (pairs.map (fun pr => pr.1.value)).sum

/-- The sum of the values of all eligible notes of a call to
`select_spendable_notes`: unspent, not excluded, in permitted pools, from
records confirmed at or before the anchor. -/
def eligibleSum (s : TransactionRecordsById) (sources : List ShieldedProtocol)
    (anchor_height : Nat) (exclude : List ShNoteId) : Nat :=
  pairsValueSum (eligiblePairs s .sapling sources anchor_height exclude) +
  pairsValueSum (eligiblePairs s .orchard sources anchor_height exclude)

/-- A store is well formed when no two records share a transaction id (the
source's store is a map keyed by txid, so this always holds there). -/
def WellFormed (s : TransactionRecordsById) : Prop :=
  (s.values.map TransactionRecord.txid).Nodup

/-! ## Concrete stores used to evaluate the code at failing inputs -/

/-- A store with a single record (txid 7) confirmed at height 5 holding one
unspent sapling note of value 30000. -/
def exactStore : TransactionRecordsById :=
  [⟨7, .confirmed 5, [⟨30000, false⟩], [], []⟩]

/-- Two records, each confirmed at height 5, each holding one unspent sapling
note; the record scanned first holds the larger value (5), the second the
smaller (3). -/
def twoNoteStore : TransactionRecordsById :=
  [⟨1, .confirmed 5, [⟨5, false⟩], [], []⟩,
   ⟨2, .confirmed 5, [⟨3, false⟩], [], []⟩]

/-- A pay-to-script-hash locking script (recognized). -/
def p2shScript : List Nat := [0xa9, 0x14] ++ List.replicate 20 0 ++ [0x87]

/-- A store with a single record (txid 3) confirmed at height 5 whose only
transparent output (value 5000, recognized script) is marked `spent`. -/
def spentOutputStore : TransactionRecordsById :=
  [⟨3, .confirmed 5, [], [], [⟨3, 0, 5000, p2shScript, true⟩]⟩]

/-! ## Structure of the scanned candidate lists -/

/-- A pair produced by `unspentPairsAux` carries an unspent note, the given
txid and pool, and an index (offset by the start index `i`) at which the note
list holds exactly that note. -/
theorem mem_unspentPairsAux {txid : Nat} {pool : ShieldedProtocol} :
    ∀ (i : Nat) (notes : List ShNote) (pr : ShNote × ShNoteId),
      pr ∈ unspentPairsAux txid pool i notes →
      pr.1.spent = false ∧ pr.2.txid = txid ∧ pr.2.shpool = pool ∧
        ∃ j, pr.2.index = i + j ∧ notes.get? j = some pr.1 := by
  intro i notes
  induction notes generalizing i with
  | nil => intro pr h; simp [unspentPairsAux] at h
  | cons n rest ih =>
    intro pr h
    by_cases hs : n.spent
    · rw [unspentPairsAux, if_pos hs] at h
      obtain ⟨h1, h2, h3, j, hj, hg⟩ := ih (i + 1) pr h
      exact ⟨h1, h2, h3, j + 1, by omega, by simpa using hg⟩
    · rw [unspentPairsAux, if_neg hs] at h
      rcases List.mem_cons.mp h with heq | hmem
      · subst heq
        refine ⟨by simpa using hs, rfl, rfl, 0, by simp, by simp⟩
      · obtain ⟨h1, h2, h3, j, hj, hg⟩ := ih (i + 1) pr hmem
        exact ⟨h1, h2, h3, j + 1, by omega, by simpa using hg⟩

/-- A pair of `select_unspent_shnotes_and_ids` is an unspent note of the
record, identified by the record's txid, the pool, and the note's position. -/
theorem mem_select_unspent {tr : TransactionRecord} {pool : ShieldedProtocol}
    {pr : ShNote × ShNoteId}
    (h : pr ∈ tr.select_unspent_shnotes_and_ids pool) :
    pr.1.spent = false ∧ pr.2.txid = tr.txid ∧ pr.2.shpool = pool ∧
      (tr.pool_notes pool).get? pr.2.index = some pr.1 := by
  obtain ⟨h1, h2, h3, j, hj, hg⟩ := mem_unspentPairsAux 0 _ pr h
  refine ⟨h1, h2, h3, ?_⟩
  rw [hj]
  simpa using hg

/-- A pair of `eligiblePairs` is an unspent, non-excluded note of the pool
from a record confirmed at or before the anchor, and its identifier resolves
back to the note inside that record. -/
theorem mem_eligiblePairs {s : TransactionRecordsById}
    {pool : ShieldedProtocol} {sources : List ShieldedProtocol} {anchor : Nat}
    {exclude : List ShNoteId} {pr : ShNote × ShNoteId}
    (h : pr ∈ eligiblePairs s pool sources anchor exclude) :
    pr.2 ∉ exclude ∧ pr.1.spent = false ∧ pr.2.shpool = pool ∧
      ∃ tr ∈ s.values, tr.status.is_confirmed_before_or_at anchor = true ∧
        tr.txid = pr.2.txid ∧
        (tr.pool_notes pool).get? pr.2.index = some pr.1 := by
  unfold eligiblePairs at h
  by_cases hc : sources.contains pool
  · rw [if_pos hc] at h
    obtain ⟨tr, htr, hpr⟩ := List.mem_flatMap.mp h
    obtain ⟨hmem, hdec⟩ := List.mem_filter.mp hpr
    obtain ⟨htr2, hconf⟩ := List.mem_filter.mp htr
    obtain ⟨h1, h2, h3, h4⟩ := mem_select_unspent hmem
    exact ⟨of_decide_eq_true hdec, h1, h3, tr, htr2, hconf, h2.symm, h4⟩
  · rw [if_neg hc] at h
    simp at h

/-- In a well-formed store, looking a record's txid up returns that record. -/
theorem get_eq_of_mem {s : TransactionRecordsById} {tr : TransactionRecord}
    (hwf : WellFormed s) (hmem : tr ∈ s.values) : s.get tr.txid = some tr := by
  have hwf' : (s.values.map TransactionRecord.txid).Nodup := hwf
  unfold TransactionRecordsById.get
  cases hfind : List.find? (fun r => r.txid == tr.txid) s with
  | none =>
    exfalso
    have := List.find?_eq_none.mp hfind tr hmem
    simp at this
  | some r =>
    have hr : r.txid = tr.txid := by simpa using List.find?_some hfind
    have hrmem : r ∈ s.values := List.mem_of_find?_eq_some hfind
    rw [List.inj_on_of_nodup_map hwf' hrmem hmem hr]

/-- In a well-formed store, the second lookup of `select_spendable_notes`
resolves every scanned pair back to its note: the fold's "missing note"
error cannot fire. -/
theorem lookup_of_eligible {s : TransactionRecordsById}
    {pool : ShieldedProtocol} {sources : List ShieldedProtocol} {anchor : Nat}
    {exclude : List ShNoteId} {pr : ShNote × ShNoteId} (hwf : WellFormed s)
    (h : pr ∈ eligiblePairs s pool sources anchor exclude) :
    (s.get pr.2.txid).bind
        (fun tr => tr.get_received_note pool pr.2.index) =
      some (pr.2, pr.1) := by
  obtain ⟨-, -, hpool, tr, htr, -, htxid, hget⟩ := mem_eligiblePairs h
  rw [← htxid, get_eq_of_mem hwf htr]
  unfold TransactionRecord.get_received_note
  simp only [Option.some_bind]
  rw [hget]
  simp only [Option.map_some']
  have : (⟨tr.txid, pool, pr.2.index⟩ : ShNoteId) = pr.2 :=
    ShNoteId.ext htxid hpool.symm rfl
  rw [this]

/-! ## The selection fold -/

/-- Each member of a candidate list contributes at most the list's total. -/
theorem value_le_pairsValueSum {pairs : List (ShNote × ShNoteId)}
    {pr : ShNote × ShNoteId} (h : pr ∈ pairs) :
    pr.1.value ≤ pairsValueSum pairs :=
  List.single_le_sum (fun x _ => Nat.zero_le x) _
    (List.mem_map_of_mem (fun q => q.1.value) h)

/-- Reversing a candidate list keeps its total. -/
theorem pairsValueSum_reverse (pairs : List (ShNote × ShNoteId)) :
    pairsValueSum pairs.reverse = pairsValueSum pairs := by
  simp [pairsValueSum, List.map_reverse, List.sum_reverse]

/-- When the rolling target strictly exceeds the candidates' total (and every
lookup succeeds and every value is in range), the fold consumes every
candidate and ends still `some`, short by exactly the difference. -/
theorem poolFold_insufficient (s : TransactionRecordsById)
    (pool : ShieldedProtocol) :
    ∀ (pairs : List (ShNote × ShNoteId)) (acc : List (ShNoteId × ShNote))
      (targ : Nat),
      (∀ pr ∈ pairs,
        ((s.get pr.2.txid).bind
          (fun tr => tr.get_received_note pool pr.2.index)).isSome) →
      (∀ pr ∈ pairs, pr.1.value ≤ MAX_MONEY) →
      pairsValueSum pairs < targ →
      ∃ out, poolFold s pool pairs acc (some targ) =
        .ok (out, some (targ - pairsValueSum pairs)) := by
  intro pairs
  induction pairs with
  | nil =>
    intro acc targ _ _ _
    exact ⟨acc, by simp [poolFold, pairsValueSum]⟩
  | cons hd rest ih =>
    intro acc targ hlk hmax hsum
    obtain ⟨note, noteref⟩ := hd
    obtain ⟨received, hrec⟩ := Option.isSome_iff_exists.mp
      (hlk (note, noteref) (List.mem_cons_self _ _))
    have hval : note.value ≤ MAX_MONEY :=
      hmax (note, noteref) (List.mem_cons_self _ _)
    have hsumeq : pairsValueSum ((note, noteref) :: rest) =
        note.value + pairsValueSum rest := by
      simp [pairsValueSum]
    have hsum' : pairsValueSum rest < targ - note.value := by omega
    obtain ⟨out, hout⟩ := ih (acc ++ [received]) (targ - note.value)
      (fun pr hpr => hlk pr (List.mem_cons_of_mem _ hpr))
      (fun pr hpr => hmax pr (List.mem_cons_of_mem _ hpr)) hsum'
    refine ⟨out, ?_⟩
    simp only [poolFold]
    rw [hrec]
    simp only [NonNegativeAmount.from_u64, if_pos hval]
    have hle : note.value ≤ targ := by omega
    simp only [nnSub, if_pos hle]
    rw [hsumeq, ← Nat.sub_sub]
    exact hout

/-- Every note pushed by the fold is either carried in from the accumulator
or identified by one of the candidate pairs (same txid and index, the fold's
pool). -/
theorem poolFold_mem (s : TransactionRecordsById) (pool : ShieldedProtocol) :
    ∀ (pairs : List (ShNote × ShNoteId)) (acc : List (ShNoteId × ShNote))
      (rolling : Option Nat) (out : List (ShNoteId × ShNote))
      (rem : Option Nat),
      poolFold s pool pairs acc rolling = .ok (out, rem) →
      ∀ q ∈ out, q ∈ acc ∨ ∃ pr ∈ pairs,
        q.1.txid = pr.2.txid ∧ q.1.shpool = pool ∧ q.1.index = pr.2.index := by
  intro pairs
  induction pairs with
  | nil =>
    intro acc rolling out rem h q hq
    rw [poolFold] at h
    rw [Except.ok.injEq, Prod.mk.injEq] at h
    obtain ⟨h1, h2⟩ := h
    subst h1
    exact Or.inl hq
  | cons hd rest ih =>
    intro acc rolling out rem h q hq
    obtain ⟨note, noteref⟩ := hd
    cases rolling with
    | none =>
      rw [poolFold] at h
      rcases ih acc none out rem h q hq with hin | ⟨pr, hpr, hp⟩
      · exact Or.inl hin
      · exact Or.inr ⟨pr, List.mem_cons_of_mem _ hpr, hp⟩
    | some targ =>
      rw [poolFold] at h
      cases hlk : (s.get noteref.txid).bind
          (fun tr => tr.get_received_note pool noteref.index) with
      | none => rw [hlk] at h; simp at h
      | some received =>
        rw [hlk] at h
        cases hfu : NonNegativeAmount.from_u64 note.value with
        | error e => rw [hfu] at h; simp at h
        | ok v =>
          rw [hfu] at h
          rcases ih (acc ++ [received]) (nnSub targ v) out rem h q hq with
            hin | ⟨pr, hpr, hp⟩
          · rcases List.mem_append.mp hin with h1 | h2
            · exact Or.inl h1
            · have hq2 : q = received := by simpa using h2
              obtain ⟨tr, hget, hnote⟩ := Option.bind_eq_some.mp hlk
              unfold TransactionRecord.get_received_note at hnote
              obtain ⟨n, hn, hrec⟩ := Option.map_eq_some'.mp hnote
              have htx : tr.txid = noteref.txid := by
                unfold TransactionRecordsById.get at hget
                simpa using List.find?_some hget
              refine Or.inr ⟨(note, noteref), List.mem_cons_self _ _, ?_⟩
              rw [hq2, ← hrec]
              exact ⟨htx, rfl, rfl⟩
          · exact Or.inr ⟨pr, List.mem_cons_of_mem _ hpr, hp⟩

/-- Any note the fold emits, when run on a pool's eligible candidates from an
empty accumulator, is a non-excluded note whose owning record is confirmed at
or before the anchor. -/
theorem eligible_fold_good {s : TransactionRecordsById}
    {pool : ShieldedProtocol} {sources : List ShieldedProtocol} {anchor : Nat}
    {exclude : List ShNoteId} {rolling : Option Nat}
    {out : List (ShNoteId × ShNote)} {rem : Option Nat}
    (h : poolFold s pool
        (eligiblePairs s pool sources anchor exclude).reverse [] rolling =
      .ok (out, rem)) :
    ∀ q ∈ out, q.1 ∉ exclude ∧
      ∃ tr ∈ s.values, tr.txid = q.1.txid ∧
        tr.status.is_confirmed_before_or_at anchor = true := by
  intro q hq
  rcases poolFold_mem s pool _ [] rolling out rem h q hq with
    hin | ⟨pr, hpr, htx, hsp, hidx⟩
  · simp at hin
  · obtain ⟨hexc, -, hpool, tr, htr, hconf, htxid, -⟩ :=
      mem_eligiblePairs (List.mem_reverse.mp hpr)
    have hq1 : q.1 = pr.2 := ShNoteId.ext htx (by rw [hsp, hpool]) hidx
    rw [hq1]
    exact ⟨hexc, tr, htr, htxid, hconf⟩

/-- Claim C5: for every account other than the sole supported account zero,
and every store, target, permitted-pool set, anchor height and exclusion set,
`select_spendable_notes` fails with the unsupported-account error (the store
never influences the outcome). -/
theorem select_rejects_nonzero_account (s : TransactionRecordsById)
    (account target : Nat) (sources : List ShieldedProtocol) (anchor : Nat)
    (exclude : List ShNoteId) (h : account ≠ 0) :
    select_spendable_notes s account target sources anchor exclude =
      .error (.err "we do not use non-zero accounts (yet?)") := by
  unfold select_spendable_notes
  rw [if_pos h]

/-- Witness for C5 at account 1 on a nonempty store. -/
theorem select_rejects_nonzero_account_witness :
    (1 : Nat) ≠ 0 ∧
    select_spendable_notes exactStore 1 30000 [.sapling] 10 [] =
      .error (.err "we do not use non-zero accounts (yet?)") :=
  ⟨by decide,
   select_rejects_nonzero_account exactStore 1 30000 [.sapling] 10 []
     (by decide)⟩

/-- Claim C9: `get_unspent_transparent_outputs` never reads its address
argument, so two calls differing only in the supplied address return
identical results. -/
theorem get_unspent_transparent_outputs_address_independent
    (s : TransactionRecordsById) (addr1 addr2 max_height : Nat)
    (exclude : List OutPoint) :
    get_unspent_transparent_outputs s addr1 max_height exclude =
      get_unspent_transparent_outputs s addr2 max_height exclude := rfl

/-- Claim C8: `get_spendable_note` returns the successful empty result when
the transaction id is absent from the store, or when the found record's
specified pool holds no note at the requested index; no error is raised. -/
theorem get_spendable_note_missing_gives_ok_none
    (s : TransactionRecordsById) (txid : Nat) (protocol : ShieldedProtocol)
    (index : Nat)
    (h : s.get txid = none ∨
      ∃ tr, s.get txid = some tr ∧ (tr.pool_notes protocol).length ≤ index) :
    get_spendable_note s txid protocol index = .ok none := by
  unfold get_spendable_note TransactionRecordsById.get_received_note_from_identifier
  rcases h with h | ⟨tr, hget, hlen⟩
  · rw [h]; rfl
  · rw [hget]
    unfold TransactionRecord.get_received_note
    simp only [Option.some_bind]
    rw [List.get?_eq_none.mpr hlen]
    rfl

/-- Witness for C8: a store holding one record with a single sapling note,
queried at the absent txid 8 and at the out-of-range index 1. -/
theorem get_spendable_note_missing_gives_ok_none_witness :
    get_spendable_note exactStore 8 .sapling 0 = .ok none ∧
    get_spendable_note exactStore 7 .sapling 1 = .ok none :=
  ⟨get_spendable_note_missing_gives_ok_none exactStore 8 .sapling 0
      (Or.inl (by decide)),
   get_spendable_note_missing_gives_ok_none exactStore 7 .sapling 1
      (Or.inr ⟨⟨7, .confirmed 5, [⟨30000, false⟩], [], []⟩, by decide, by decide⟩)⟩

/-- Claim C2: whenever the target strictly exceeds the sum of all eligible
note values (the target being a representable amount and the store
well-formed, as the source's map-keyed store always is), the call fails with
the insufficient-funds error whose reported shortfall is exactly the target
minus that sum. -/
theorem select_insufficient_exact_shortfall (s : TransactionRecordsById)
    (target : Nat) (sources : List ShieldedProtocol) (anchor : Nat)
    (exclude : List ShNoteId) (hwf : WellFormed s)
    (hmax : target ≤ MAX_MONEY)
    (hgt : eligibleSum s sources anchor exclude < target) :
    select_spendable_notes s 0 target sources anchor exclude =
      .error (.err ("insufficient funds, short " ++
        toString (target - eligibleSum s sources anchor exclude))) := by
  have hsum : eligibleSum s sources anchor exclude =
      pairsValueSum (eligiblePairs s .sapling sources anchor exclude) +
      pairsValueSum (eligiblePairs s .orchard sources anchor exclude) := rfl
  unfold select_spendable_notes
  rw [if_neg (by simp)]
  simp only []
  obtain ⟨outS, hS⟩ := poolFold_insufficient s .sapling
    (eligiblePairs s .sapling sources anchor exclude).reverse [] target
    (fun pr hpr => by
      rw [lookup_of_eligible hwf (List.mem_reverse.mp hpr)]; rfl)
    (fun pr hpr => by
      have := value_le_pairsValueSum (List.mem_reverse.mp hpr)
      omega)
    (by rw [pairsValueSum_reverse]; omega)
  rw [pairsValueSum_reverse] at hS
  rw [hS]
  simp only []
  obtain ⟨outO, hO⟩ := poolFold_insufficient s .orchard
    (eligiblePairs s .orchard sources anchor exclude).reverse []
    (target - pairsValueSum (eligiblePairs s .sapling sources anchor exclude))
    (fun pr hpr => by
      rw [lookup_of_eligible hwf (List.mem_reverse.mp hpr)]; rfl)
    (fun pr hpr => by
      have := value_le_pairsValueSum (List.mem_reverse.mp hpr)
      omega)
    (by rw [pairsValueSum_reverse]; omega)
  rw [pairsValueSum_reverse] at hO
  rw [hO]
  simp only []
  have harith :
      target -
          pairsValueSum (eligiblePairs s .sapling sources anchor exclude) -
          pairsValueSum (eligiblePairs s .orchard sources anchor exclude) =
        target - eligibleSum s sources anchor exclude := by
    omega
  rw [harith]

/-- Witness for C2: the empty store (eligible sum 0) with target 5 fails
short exactly 5. -/
theorem select_insufficient_exact_shortfall_witness :
    select_spendable_notes ([] : TransactionRecordsById) 0 5 [] 0 [] =
      .error (.err "insufficient funds, short 5") :=
  select_insufficient_exact_shortfall [] 5 [] 0 []
    (by simp [WellFormed, TransactionRecordsById.values])
    (by decide) (by decide)

/-- Claim C6: every note of a successful selection is keyed by an identifier
outside the exclusion set, and its owning record is one of the store's
records confirmed at or before the anchor height. -/
theorem select_ok_respects_exclusion_and_anchor (s : TransactionRecordsById)
    (target : Nat) (sources : List ShieldedProtocol) (anchor : Nat)
    (exclude : List ShNoteId) (sel : SpendableNotes)
    (h : select_spendable_notes s 0 target sources anchor exclude = .ok sel) :
    ∀ q ∈ sel.sapling ++ sel.orchard,
      q.1 ∉ exclude ∧
        ∃ tr ∈ s.values, tr.txid = q.1.txid ∧
          tr.status.is_confirmed_before_or_at anchor = true := by
  unfold select_spendable_notes at h
  rw [if_neg (by simp)] at h
  simp only [] at h
  cases hS : poolFold s .sapling
      (eligiblePairs s .sapling sources anchor exclude).reverse []
      (some target) with
  | error e => rw [hS] at h; simp at h
  | ok pS =>
    obtain ⟨sapling_notes, after_sapling⟩ := pS
    rw [hS] at h
    simp only [] at h
    cases after_sapling with
    | none =>
      rw [Except.ok.injEq] at h
      subst h
      intro q hq
      simp only [List.append_nil] at hq
      exact eligible_fold_good hS q hq
    | some missing =>
      simp only [] at h
      cases hO : poolFold s .orchard
          (eligiblePairs s .orchard sources anchor exclude).reverse []
          (some missing) with
      | error e => rw [hO] at h; simp at h
      | ok pO =>
        obtain ⟨orchard_notes, after_orchard⟩ := pO
        rw [hO] at h
        simp only [] at h
        cases after_orchard with
        | none =>
          rw [Except.ok.injEq] at h
          subst h
          intro q hq
          rcases List.mem_append.mp hq with h1 | h2
          · exact eligible_fold_good hS q h1
          · exact eligible_fold_good hO q h2
        | some missing2 => simp at h

/-- Witness for C6: the single-note store, target 20000 — the selection holds
the one sapling note, which is not excluded and is confirmed at height 5 ≤
anchor 10. -/
theorem select_ok_respects_exclusion_and_anchor_witness :
    (⟨7, .sapling, 0⟩ : ShNoteId) ∉ ([] : List ShNoteId) ∧
      ∃ tr ∈ exactStore.values, tr.txid = 7 ∧
        tr.status.is_confirmed_before_or_at 10 = true :=
  select_ok_respects_exclusion_and_anchor exactStore 20000
    [.sapling, .orchard] 10 []
    ⟨[(⟨7, .sapling, 0⟩, ⟨30000, false⟩)], []⟩ rfl
    (⟨7, .sapling, 0⟩, ⟨30000, false⟩) (by simp)

/-- Claim C1 (code bug, boundary case): with one eligible unspent sapling
note of value 30000 — so the eligible sum is 30000 — and target exactly
30000 ≤ the sum, the call fails with "insufficient funds, short 0" instead
of succeeding: the fold treats an exactly-met target (`Some(0)`) as still
unmet. -/
theorem select_exact_target_insufficient_bug :
    select_spendable_notes exactStore 0 30000 [.sapling, .orchard] 10 [] =
      .error (.err "insufficient funds, short 0") := rfl

/-- Claim C4 (code bug): with target zero and one eligible candidate the call
returns a nonempty selection — the fold starts from `Some(0)` and still adds
the next note — contradicting both "once the remaining target reaches zero no
further note is added" and "a target of zero returns empty selections". -/
theorem select_zero_target_selects_note_bug :
    select_spendable_notes exactStore 0 0 [.sapling] 10 [] =
      .ok ⟨[(⟨7, .sapling, 0⟩, ⟨30000, false⟩)], []⟩ := rfl

/-- Claim C3 (code bug): the candidate list is only reversed, never sorted by
value.  With scan order [value 5 (txid 1), value 3 (txid 2)] and target 4,
both notes are needed, yet the value-3 note is added to the selection before
the value-5 note — not descending order. -/
theorem select_not_value_descending_bug :
    select_spendable_notes twoNoteStore 0 4 [.sapling] 10 [] =
      .ok ⟨[(⟨2, .sapling, 0⟩, ⟨3, false⟩), (⟨1, .sapling, 0⟩, ⟨5, false⟩)],
           []⟩ := rfl

/-! ## The transparent-output item stream -/

/-- Every element of a successfully collected list occurs as an `ok` item. -/
theorem collectResults_mem :
    ∀ (items : List (Except ZingoLibError WalletTransparentOutput))
      (l : List WalletTransparentOutput), collectResults items = .ok l →
      ∀ w ∈ l, Except.ok w ∈ items := by
  intro items
  induction items with
  | nil =>
    intro l h w hw
    rw [collectResults, Except.ok.injEq] at h
    rw [← h] at hw
    simp at hw
  | cons it rest ih =>
    intro l h w hw
    cases it with
    | error e => rw [collectResults] at h; simp at h
    | ok w0 =>
      rw [collectResults] at h
      cases hrest : collectResults rest with
      | error e => rw [hrest] at h; simp [Except.map] at h
      | ok l0 =>
        rw [hrest] at h
        simp only [Except.map] at h
        rw [Except.ok.injEq] at h
        rw [← h] at hw
        rcases List.mem_cons.mp hw with heq | hmem
        · rw [heq]; exact List.mem_cons_self _ _
        · exact List.mem_cons_of_mem _ (ih l0 hrest w hmem)

/-- If every item is an `ok`, collecting succeeds. -/
theorem collectResults_all_ok :
    ∀ (items : List (Except ZingoLibError WalletTransparentOutput)),
      (∀ it ∈ items, ∃ w, it = .ok w) →
      ∃ l, collectResults items = .ok l := by
  intro items
  induction items with
  | nil => exact fun _ => ⟨[], rfl⟩
  | cons it rest ih =>
    intro hall
    obtain ⟨w, hw⟩ := hall it (List.mem_cons_self _ _)
    obtain ⟨l, hl⟩ := ih (fun it' h' => hall it' (List.mem_cons_of_mem _ h'))
    subst hw
    exact ⟨w :: l, by rw [collectResults, hl]; rfl⟩

/-- Each item of the stream comes from a non-excluded output of a record
confirmed at or below the ceiling; it is the amount-range error when the
value is out of range, and otherwise an `ok` carrying the rebuilt output,
which exists only for a recognized script. -/
theorem mem_transparentItems {s : TransactionRecordsById} {max_height : Nat}
    {exclude : List OutPoint}
    {it : Except ZingoLibError WalletTransparentOutput}
    (h : it ∈ transparentItems s max_height exclude) :
    ∃ tr ∈ s.values, ∃ h0, tr.status.get_confirmed_height = some h0 ∧
      h0 ≤ max_height ∧
      ∃ o ∈ tr.transparent_outputs,
        (∀ e ∈ exclude, e ≠ o.to_outpoint) ∧
        ((MAX_MONEY < o.value ∧ it = .error (.err "invalid amount")) ∨
         (o.value ≤ MAX_MONEY ∧ recognized_script o.script = true ∧
           it = .ok ⟨o.to_outpoint, ⟨o.value, o.script⟩, h0⟩)) := by
  unfold transparentItems at h
  obtain ⟨p, hp, hit⟩ := List.mem_flatMap.mp h
  obtain ⟨tr, htr, hfp⟩ := List.mem_filterMap.mp hp
  cases hh : tr.status.get_confirmed_height with
  | none => rw [hh] at hfp; simp [Option.filter] at hfp
  | some h0 =>
    rw [hh] at hfp
    simp only [Option.map_some', Option.filter] at hfp
    by_cases hle : h0 ≤ max_height
    · rw [if_pos (by simpa using hle)] at hfp
      rw [Option.some.injEq] at hfp
      subst hfp
      obtain ⟨o, ho, hfo⟩ := List.mem_filterMap.mp hit
      obtain ⟨ho1, ho2⟩ := List.mem_filter.mp ho
      have hexc : ∀ e ∈ exclude, e ≠ o.to_outpoint := by
        intro e he
        exact of_decide_eq_true (List.all_eq_true.mp ho2 e he)
      refine ⟨tr, htr, h0, hh, hle, o, ho1, hexc, ?_⟩
      by_cases hv : o.value ≤ MAX_MONEY
      · simp only [NonNegativeAmount.from_u64, if_pos hv] at hfo
        obtain ⟨w, hw, hwit⟩ := Option.map_eq_some'.mp hfo
        unfold WalletTransparentOutput.from_parts at hw
        by_cases hr : recognized_script o.script
        · rw [if_pos hr] at hw
          rw [Option.some.injEq] at hw
          exact Or.inr ⟨hv, hr, by rw [← hwit, ← hw]⟩
        · rw [if_neg hr] at hw
          cases hw
      · simp only [NonNegativeAmount.from_u64, if_neg hv] at hfo
        rw [Option.some.injEq] at hfo
        exact Or.inl ⟨by omega, hfo.symm⟩
    · rw [if_neg (by simpa using hle)] at hfp
      cases hfp

/-- The single transparent lookup of an outpoint whose sole matching output
has an in-range value but an unrecognized locking script returns the
successful empty result. -/
theorem single_lookup_unrecognized {s : TransactionRecordsById}
    {o : TransparentOutput}
    (huniq : ∀ tr ∈ s.values, ∀ o' ∈ tr.transparent_outputs,
      o'.to_outpoint = o.to_outpoint → o' = o)
    (hval : o.value ≤ MAX_MONEY)
    (hscript : recognized_script o.script = false) :
    get_unspent_transparent_output s o.to_outpoint = .ok none := by
  unfold get_unspent_transparent_output
  split
  · rfl
  · next height output hfind =>
    obtain ⟨tr, htr, hinner⟩ := List.exists_of_findSome?_eq_some hfind
    obtain ⟨o', ho', hcond⟩ := List.exists_of_findSome?_eq_some hinner
    by_cases heq : o'.to_outpoint = o.to_outpoint
    · rw [if_pos heq] at hcond
      obtain ⟨h0, hh0, hp⟩ := Option.map_eq_some'.mp hcond
      have ho2 : o' = o := huniq tr htr o' ho' heq
      rw [Prod.mk.injEq] at hp
      rw [← hp.2, ho2]
      simp only [NonNegativeAmount.from_u64, if_pos hval]
      unfold WalletTransparentOutput.from_parts
      rw [hscript]
      rfl
    · rw [if_neg heq] at hcond
      cases hcond

/-- Claim C10: a transparent output with an in-range value whose locking
script is unrecognized (`from_parts` yields nothing) is handled without an
error: the single lookup by its outpoint returns the successful empty
result, and the bulk lookup succeeds (given all stored values in range)
while silently omitting that outpoint. -/
theorem unrecognized_script_output_omitted (s : TransactionRecordsById)
    (o : TransparentOutput) (addr max_height : Nat) (exclude : List OutPoint)
    (huniq : ∀ tr ∈ s.values, ∀ o' ∈ tr.transparent_outputs,
      o'.to_outpoint = o.to_outpoint → o' = o)
    (hval : ∀ tr ∈ s.values, ∀ o' ∈ tr.transparent_outputs,
      o'.value ≤ MAX_MONEY)
    (hvo : o.value ≤ MAX_MONEY)
    (hscript : recognized_script o.script = false) :
    get_unspent_transparent_output s o.to_outpoint = .ok none ∧
    ∃ l, get_unspent_transparent_outputs s addr max_height exclude = .ok l ∧
      ∀ w ∈ l, w.outpoint ≠ o.to_outpoint := by
  refine ⟨single_lookup_unrecognized huniq hvo hscript, ?_⟩
  have hall : ∀ it ∈ transparentItems s max_height exclude,
      ∃ w, it = .ok w := by
    intro it hit
    obtain ⟨tr, htr, h0, -, -, o', ho', -, hdisj⟩ := mem_transparentItems hit
    rcases hdisj with ⟨hbig, -⟩ | ⟨-, -, hok⟩
    · exact absurd hbig (by have := hval tr htr o' ho'; omega)
    · exact ⟨_, hok⟩
  obtain ⟨l, hl⟩ := collectResults_all_ok _ hall
  refine ⟨l, hl, ?_⟩
  intro w hw heq
  have hitem := collectResults_mem _ l hl w hw
  obtain ⟨tr, htr, h0, -, -, o', ho', -, hdisj⟩ := mem_transparentItems hitem
  rcases hdisj with ⟨-, hbad⟩ | ⟨-, hrec, hok⟩
  · cases hbad
  · rw [Except.ok.injEq] at hok
    have hout : o'.to_outpoint = o.to_outpoint := by
      rw [← heq, hok]
    have ho2 : o' = o := huniq tr htr o' ho' hout
    rw [ho2] at hrec
    rw [hrec] at hscript
    cases hscript

/-- A store whose only record (txid 9, confirmed at 5) holds one transparent
output with in-range value 100 and the unrecognized script `[1, 2, 3]`. -/
def unrecognizedStore : TransactionRecordsById :=
  [⟨9, .confirmed 5, [], [], [⟨9, 0, 100, [1, 2, 3], false⟩]⟩]

/-- Witness for C10 on `unrecognizedStore`. -/
theorem unrecognized_script_output_omitted_witness :
    get_unspent_transparent_output unrecognizedStore
        (TransparentOutput.to_outpoint ⟨9, 0, 100, [1, 2, 3], false⟩) =
      .ok none ∧
    ∃ l, get_unspent_transparent_outputs unrecognizedStore 0 10 [] = .ok l ∧
      ∀ w ∈ l, w.outpoint ≠
        TransparentOutput.to_outpoint ⟨9, 0, 100, [1, 2, 3], false⟩ :=
  unrecognized_script_output_omitted unrecognizedStore
    ⟨9, 0, 100, [1, 2, 3], false⟩ 0 10 []
    (by decide) (by decide) (by decide) (by decide)

/-- Claim C7 (code bug): neither transparent lookup consults the output's
spent marker.  A confirmed record whose only transparent output is marked
spent: the bulk lookup returns it and the single lookup by its outpoint
returns it. -/
theorem transparent_lookup_returns_spent_output_bug :
    get_unspent_transparent_outputs spentOutputStore 0 10 [] =
      .ok [⟨⟨3, 0⟩, ⟨5000, p2shScript⟩, 5⟩] ∧
    get_unspent_transparent_output spentOutputStore ⟨3, 0⟩ =
      .ok (some ⟨⟨3, 0⟩, ⟨5000, p2shScript⟩, 5⟩) := ⟨rfl, rfl⟩

end ZingoLib
